import Mathlib

/-!
Verification development for the deepseek2api proxy
(`app/openai_adapter.py`, `app/main.py`, `app/deepseek.py`, `app/accounts.py`).

The Python code passes stream events around as dictionaries with a `"type"`
key and an optional `"content"` key; both are strings when present.  We
embed such an event as a pair of `Option String` fields.  Python truthiness
of an optional string (`not x` in the source) is: absent, or present and
empty.
-/

/-- An internal stream event, as produced by `DeepSeekClient.chat_stream` and
consumed by `convert_to_openai_stream` / `get_full_response`.  In the source
these are dicts with keys `"type"` and `"content"`; a missing key is `none`. -/
structure DSChunk where
  type_ : Option String
  content : Option String
deriving DecidableEq, Repr

/-- Python truthiness test for an optional string: `not x` is true when the
key is absent or the string is empty. -/
def strFalsy (o : Option String) : Bool := o.getD "" == ""

/-- The `delta` object built per event in `convert_to_openai_stream`:
it starts with role assistant and both `content` and `reasoning_content` null,
and at most one branch fills one field. -/
structure Delta where
  content : Option String
  reasoning_content : Option String
deriving DecidableEq, Repr

/-- An output frame of `convert_to_openai_stream`: a data chunk carrying a
delta (`finish_reason` null), the final chunk with `finish_reason` `"stop"`,
or the literal end-marker line `data: [DONE]`. These three frame shapes are
pairwise distinguishable in the serialized output. -/
inductive OutChunk where
  | data (d : Delta)
  | stop
  | done
deriving DecidableEq, Repr

/-- One iteration of the `async for` loop body of `convert_to_openai_stream`
(`app/openai_adapter.py`): the guard `if not chunk_type or not content:
continue` yields `none`; otherwise the delta produced by the `if`/`elif`
chain is returned (the `is_thinking` flag is assigned there but never read,
so it does not influence the output and is omitted). -/
def processEvent (e : DSChunk) : Option Delta :=
  if strFalsy e.type_ || strFalsy e.content then none
  else
    let t := e.type_.getD ""
    some (if t == "thinking_start" then ⟨none, some "[Thinking] "⟩
      else if t == "answer_start" then ⟨some "", none⟩
      else if t == "thinking" then ⟨none, e.content⟩
      else if t == "content" then ⟨e.content, none⟩
      else ⟨none, none⟩)

/-- The data chunks emitted by the `async for` loop of
`convert_to_openai_stream`, in order. -/
def convBody : List DSChunk → List OutChunk
  | [] => []
  | e :: rest =>
    match processEvent e with
    | some d => OutChunk.data d :: convBody rest
    | none => convBody rest

/-- `convert_to_openai_stream` (`app/openai_adapter.py`): translate the whole
event sequence, then emit the final `finish_reason: "stop"` chunk and the
`data: [DONE]` end marker. -/
def convert_to_openai_stream (events : List DSChunk) : List OutChunk :=
  convBody events ++ [OutChunk.stop, OutChunk.done]

-- Event constructors exactly as `chat_stream` yields them: the two start
-- events carry no "content" key at all.
def thinkingStartEv : DSChunk := ⟨some "thinking_start", none⟩
def answerStartEv : DSChunk := ⟨some "answer_start", none⟩
def thinkingEv (s : String) : DSChunk := ⟨some "thinking", some s⟩
def contentEv (s : String) : DSChunk := ⟨some "content", some s⟩
def errorEv (s : String) : DSChunk := ⟨some "error", some s⟩

/-- Concatenation of the `content` fields of the emitted output chunks, in
order (a `none` field contributes nothing). -/
def outContent : List OutChunk → String
  | [] => ""
  | OutChunk.data d :: rest => d.content.getD "" ++ outContent rest
  | _ :: rest => outContent rest

/-- Concatenation of the texts of the `"content"`-typed input events, in
order. -/
def eventContent : List DSChunk → String
  | [] => ""
  | e :: rest =>
    (if e.type_ == some "content" then e.content.getD "" else "") ++ eventContent rest

theorem outContent_stop_done (xs : List OutChunk) :
    outContent (xs ++ [OutChunk.stop, OutChunk.done]) = outContent xs := by
  induction xs with
  | nil => rfl
  | cons c rest ih => cases c <;> simp [outContent, ih]

theorem processEvent_one_side (e : DSChunk) (d : Delta)
    (h : processEvent e = some d) : d.content = none ∨ d.reasoning_content = none := by
  unfold processEvent at h
  split at h
  · exact absurd h (by simp)
  · simp only [Option.some.injEq] at h
    subst h
    split
    · exact Or.inl rfl
    · split
      · exact Or.inr rfl
      · split
        · exact Or.inl rfl
        · split
          · exact Or.inr rfl
          · exact Or.inl rfl

theorem convBody_cons_some (e : DSChunk) (rest : List DSChunk) (d : Delta)
    (h : processEvent e = some d) :
    convBody (e :: rest) = OutChunk.data d :: convBody rest := by
  simp [convBody, h]

theorem convBody_cons_none (e : DSChunk) (rest : List DSChunk)
    (h : processEvent e = none) :
    convBody (e :: rest) = convBody rest := by
  simp [convBody, h]

theorem processEvent_guard (e : DSChunk)
    (h : (strFalsy e.type_ || strFalsy e.content) = true) : processEvent e = none := by
  simp [processEvent, h]

theorem processEvent_content_field (e : DSChunk) (d : Delta)
    (h : processEvent e = some d) :
    d.content.getD "" = (if e.type_ == some "content" then e.content.getD "" else "") := by
  cases hty : e.type_ with
  | none =>
    rw [processEvent_guard e (by simp [strFalsy, hty])] at h
    cases h
  | some t =>
    unfold processEvent at h
    simp only [hty] at h ⊢
    split_ifs at h with h1 <;> simp_all [strFalsy] <;> subst h <;> simp

theorem convBody_data (events : List DSChunk) (c : OutChunk)
    (h : c ∈ convBody events) : ∃ e d, e ∈ events ∧ processEvent e = some d ∧ c = OutChunk.data d := by
  induction events with
  | nil => cases h
  | cons e rest ih =>
    unfold convBody at h
    revert h
    split
    · intro h
      rcases List.mem_cons.mp h with h1 | h1
      · exact ⟨e, _, List.mem_cons_self e rest, by assumption, h1⟩
      · rcases ih h1 with ⟨e', d', he, hp, hc⟩
        exact ⟨e', d', List.mem_cons_of_mem e he, hp, hc⟩
    · intro h
      rcases ih h with ⟨e', d', he, hp, hc⟩
      exact ⟨e', d', List.mem_cons_of_mem e he, hp, hc⟩

theorem convBody_content (events : List DSChunk) :
    outContent (convBody events) = eventContent events := by
  induction events with
  | nil => rfl
  | cons e rest ih =>
    cases hpe : processEvent e with
    | none =>
      rw [convBody_cons_none e rest hpe, ih]
      have hz : (if e.type_ == some "content" then e.content.getD "" else "") = "" := by
        by_cases ht : (e.type_ == some "content") = true
        · have hty : e.type_ = some "content" := eq_of_beq ht
          simp only [processEvent, hty, strFalsy] at hpe
          simp_all
        · simp [ht]
      show eventContent rest
        = (if e.type_ == some "content" then e.content.getD "" else "") ++ eventContent rest
      rw [hz]
      simp
    | some d =>
      rw [convBody_cons_some e rest d hpe]
      show d.content.getD "" ++ outContent (convBody rest) = _
      rw [ih, eventContent, processEvent_content_field e d hpe]

/-- C2: the claimed translation of `[ThinkingStart, ThinkingDelta "ab",
AnswerStart, ContentDelta "cd"]` into four content-bearing chunks fails on
the code: `chat_stream` emits the two start events without a `"content"`
key, so the `if not chunk_type or not content: continue` guard in
`convert_to_openai_stream` drops them, and the unreachable
`thinking_start`/`answer_start` branches (which would emit the lead-in
marker and the empty content chunk exactly as the claim describes) never
run.  Evaluating the translator at the claim's input yields only two data
chunks before the stop chunk and the end marker. -/
theorem C2_translator_drops_start_chunks :
    convert_to_openai_stream [thinkingStartEv, thinkingEv "ab", answerStartEv, contentEv "cd"]
      = [OutChunk.data ⟨none, some "ab"⟩, OutChunk.data ⟨some "cd", none⟩,
         OutChunk.stop, OutChunk.done] := by decide

/-- C6: for every input event sequence (including the empty one) the
translator's output is a list of data chunks followed by exactly one
stop-reason chunk and then exactly one end-marker frame, and neither the
stop chunk nor the end marker occurs anywhere earlier. -/
theorem C6_stop_and_done_terminate (events : List DSChunk) :
    ∃ pre, convert_to_openai_stream events = pre ++ [OutChunk.stop, OutChunk.done] ∧
      pre.countP (fun c => c == OutChunk.stop) = 0 ∧
      pre.countP (fun c => c == OutChunk.done) = 0 := by
  refine ⟨convBody events, rfl, ?_, ?_⟩ <;>
    · rw [List.countP_eq_zero]
      intro c hc
      rcases convBody_data events c hc with ⟨e, d, _, _, rfl⟩
      simp

/-- C8: concatenating the `content` fields of all chunks emitted by the
translator equals concatenating the texts of all `"content"`-typed input
events, in order. -/
theorem C8_content_concatenation (events : List DSChunk) :
    outContent (convert_to_openai_stream events) = eventContent events := by
  rw [convert_to_openai_stream, outContent_stop_done, convBody_content]

/-- C5 fails as stated: an event with an unrecognized (but present) type and
non-empty content — here the `error` event that `chat_stream` itself
produces — passes the guard, matches no branch, and is forwarded as a data
chunk with both fields null, i.e. an empty frame before the stop chunk with
neither field populated. -/
theorem C5_counterexample :
    convert_to_openai_stream [errorEv "boom"]
      = [OutChunk.data ⟨none, none⟩, OutChunk.stop, OutChunk.done]
    ∧ ¬ ((((⟨none, none⟩ : Delta)).content.getD "" ≠ "")
        ∨ (((⟨none, none⟩ : Delta)).reasoning_content.getD "" ≠ "")) := by
  decide

/-- C5 (amended): every data chunk emitted by the translator has at least
one of its two fields equal to null — so no frame ever carries both a
non-empty reasoning field and a non-empty content field — and events whose
type key is missing/empty or whose content is missing/empty are suppressed
entirely; but an event with an unrecognized non-empty type and non-empty
content is forwarded as a frame with both fields null rather than being
suppressed. -/
theorem C5_one_field_and_guard_suppression :
    (∀ events d, OutChunk.data d ∈ convert_to_openai_stream events →
      d.content = none ∨ d.reasoning_content = none)
    ∧ (∀ e rest, (strFalsy e.type_ || strFalsy e.content) = true →
      convert_to_openai_stream (e :: rest) = convert_to_openai_stream rest) := by
  constructor
  · intro events d hmem
    rcases List.mem_append.mp hmem with h | h
    · rcases convBody_data events _ h with ⟨e, d', _, hp, hd⟩
      injection hd with h2
      subst h2
      exact processEvent_one_side e d hp
    · simp at h
  · intro e rest hg
    rw [convert_to_openai_stream, convert_to_openai_stream,
      convBody_cons_none e rest (processEvent_guard e hg)]

/-- Witness for C5's amended theorem at concrete inputs: the single data
chunk produced by a content event has a null reasoning field, and a
start event (no content key) is suppressed. -/
theorem C5_one_field_and_guard_suppression_witness :
    ((⟨some "x", none⟩ : Delta).content = none ∨ (⟨some "x", none⟩ : Delta).reasoning_content = none)
    ∧ convert_to_openai_stream [thinkingStartEv] = convert_to_openai_stream [] :=
  ⟨C5_one_field_and_guard_suppression.1 [contentEv "x"] ⟨some "x", none⟩ (by decide),
   C5_one_field_and_guard_suppression.2 thinkingStartEv [] (by decide)⟩

/-- The aggregation loop of `get_full_response` (`app/main.py`): accumulate
the content of `"content"`-typed chunks; on the first `"error"`-typed chunk
raise `HTTPException(500, detail=chunk.get("content"))`, modelled as
`Except.error` carrying the (optional) error text; every other chunk is
ignored.  The source's `chunk.get("content", "")` default is modelled as
`Option.getD ""`; events whose payload is not a string are outside the
model (see the `DSFrame` note). -/
def gfrLoop (acc : String) : List DSChunk → Except (Option String) String
  | [] => Except.ok acc
  | c :: rest =>
    if c.type_ == some "content" then gfrLoop (acc ++ c.content.getD "") rest
    else if c.type_ == some "error" then Except.error c.content
    else gfrLoop acc rest

/-- `get_full_response` (`app/main.py`): consume the whole per-turn chunk
sequence, starting from the empty accumulator. -/
def get_full_response (chunks : List DSChunk) : Except (Option String) String :=
  gfrLoop "" chunks

/-- Concatenation of the texts of the `"content"`-typed chunks with the
default `""` for a missing content key, exactly as
`full_content += chunk.get("content", "")` accumulates them. -/
theorem gfrLoop_characterization (chunks : List DSChunk) (acc : String) :
    gfrLoop acc chunks
      = match chunks.find? (fun c => c.type_ == some "error") with
        | some e => Except.error e.content
        | none => Except.ok (acc ++ eventContent chunks) := by
  induction chunks generalizing acc with
  | nil => simp [gfrLoop, eventContent]
  | cons c rest ih =>
    by_cases hct : (c.type_ == some "content") = true
    · have hne : (c.type_ == some "error") = false := by
        have := eq_of_beq hct
        simp [this]
      rw [show gfrLoop acc (c :: rest) = gfrLoop (acc ++ c.content.getD "") rest by
            simp [gfrLoop, hct],
          ih]
      rw [List.find?_cons_of_neg _ (by simp [hne])]
      cases rest.find? (fun c => c.type_ == some "error") with
      | none => simp [eventContent, hct, String.append_assoc]
      | some e => rfl
    · by_cases her : (c.type_ == some "error") = true
      · rw [show gfrLoop acc (c :: rest) = Except.error c.content by
              simp [gfrLoop, hct, her]]
        simp [List.find?_cons, her]
      · rw [show gfrLoop acc (c :: rest) = gfrLoop acc rest by
              simp [gfrLoop, hct, her],
            ih]
        rw [List.find?_cons_of_neg _ (by simp [her])]
        cases rest.find? (fun c => c.type_ == some "error") with
        | none => simp [eventContent, hct]
        | some e => rfl

/-- C7 fails as stated: a mid-stream failure is surfaced by `chat_stream`
as an `error`-typed chunk, and `get_full_response` then raises
`HTTPException(500)` — discarding the content accumulated so far — instead
of returning it as a normal response.  Concretely, after accumulating
`"hi"` the error chunk turns the whole response into an error. -/
theorem C7_counterexample :
    get_full_response [contentEv "hi", errorEv "boom"] = Except.error (some "boom")
    ∧ get_full_response [contentEv "hi", errorEv "boom"] ≠ Except.ok "hi" := by
  refine ⟨rfl, fun h => ?_⟩
  rw [show get_full_response [contentEv "hi", errorEv "boom"]
        = Except.error (some "boom") from rfl] at h
  exact Except.noConfusion h

/-- C7 (amended): if the per-turn chunk sequence contains an error chunk,
the non-streaming caller receives a 500 error carrying the first error
chunk's text and the accumulated content is discarded; only when the
sequence ends without any error chunk (e.g. silent upstream truncation, or
a PoW failure that produces an empty stream) does the caller receive the
accumulated content as a normal response, with no marker that the result
may be truncated. -/
theorem C7_error_raises_else_accumulated_content (chunks : List DSChunk) :
    (match chunks.find? (fun c => c.type_ == some "error") with
      | some e => get_full_response chunks = Except.error e.content
      | none => get_full_response chunks = Except.ok (eventContent chunks)) := by
  have hc := gfrLoop_characterization chunks ""
  rw [get_full_response]
  cases h : chunks.find? (fun c => c.type_ == some "error") with
  | some e =>
    simp only [h] at hc ⊢
    exact hc
  | none =>
    simp only [h] at hc ⊢
    rw [hc]
    simp

/-- C10: whenever the non-streaming path returns a normal response, the
response body is exactly the concatenation of the `"content"`-typed chunk
texts — text of `thinking`-typed chunks (and the thinking lead-in, which is
an adapter-side artifact anyway) never appears in it. -/
theorem C10_nonstreaming_contains_only_content (chunks : List DSChunk) (s : String)
    (h : get_full_response chunks = Except.ok s) : s = eventContent chunks := by
  have hc := gfrLoop_characterization chunks ""
  rw [get_full_response, hc] at h
  cases hfind : chunks.find? (fun c => c.type_ == some "error") with
  | some e =>
    simp only [hfind] at h
    exact Except.noConfusion h
  | none =>
    simp only [hfind, Except.ok.injEq] at h
    rw [← h]
    simp

/-- Witness for C10 at a concrete input containing thinking events: the
aggregated body of a stream with thinking text `"secret"` and answer text
`"hi"` is exactly `"hi"`. -/
theorem C10_nonstreaming_contains_only_content_witness :
    ("hi" : String) = eventContent [thinkingStartEv, thinkingEv "secret", contentEv "hi"] :=
  C10_nonstreaming_contains_only_content
    [thinkingStartEv, thinkingEv "secret", contentEv "hi"] "hi" rfl

/-- A parsed upstream SSE frame as seen inside `chat_stream`'s loop
(`app/deepseek.py`), after JSON decoding: `pKey` is the `"p"` entry of the
decoded object (`none` = key absent, `some none` = key present with a null
value, `some (some s)` = string value `s`), and `vStr` is `some s` exactly
when the `"v"` entry is the string `s` (absent, null or non-string values
all behave alike in the loop and are collapsed to `none`; for the two
path-discriminated branches the `"v"` value is passed through unchanged, so
this collapse only forgets non-string payloads that no claim depends on). -/
structure DSFrame where
  pKey : Option (Option String)
  vStr : Option String
deriving DecidableEq, Repr

/-- One buffered line of the upstream response, split on the double-newline
frame delimiter: a line not starting with `data:`, the `[DONE]` terminator,
a line whose payload fails to decode as JSON, or a decoded frame. -/
inductive RawLine where
  | noData
  | doneMark
  | bad
  | ok (f : DSFrame)
deriving DecidableEq, Repr

/-- The body of the `if`/`elif` chain on a decoded frame in `chat_stream`:
given the current `is_thinking` flag, the events yielded for this frame and
the new flag value.  `chunk.get("p")` is `pKey.join`; the fallback branch
requires a string `"v"` value and `"p" not in chunk`. -/
def stepFrame (thinking : Bool) (f : DSFrame) : List DSChunk × Bool :=
  if f.pKey.join == some "response/thinking_content" then
    ((if thinking then [] else [thinkingStartEv]) ++ [⟨some "thinking", f.vStr⟩], true)
  else if f.pKey.join == some "response/content" then
    ((if thinking then [answerStartEv] else []) ++ [⟨some "content", f.vStr⟩], false)
  else
    match f.pKey, f.vStr with
    | none, some s =>
      ([⟨some (if thinking then "thinking" else "content"), some s⟩], thinking)
    | _, _ => ([], thinking)

/-- Result of running `chat_stream`'s line loop: the yielded events,
whether the `[DONE]` sentinel ended the loop (a `return`, so nothing after
it is processed), and the final `is_thinking` flag. -/
structure ProcOut where
  evs : List DSChunk
  sawDone : Bool
  mode : Bool
deriving DecidableEq, Repr

/-- `chat_stream`'s per-line loop: skip lines without the `data:` marker,
stop at `[DONE]`, skip undecodable payloads, and classify decoded frames
with `stepFrame`, threading the `is_thinking` flag. -/
def procLines (thinking : Bool) : List RawLine → ProcOut
  | [] => ⟨[], false, thinking⟩
  | RawLine.noData :: rest => procLines thinking rest
  | RawLine.doneMark :: _ => ⟨[], true, thinking⟩
  | RawLine.bad :: rest => procLines thinking rest
  | RawLine.ok f :: rest =>
    let s := stepFrame thinking f
    let r := procLines s.2 rest
    ⟨s.1 ++ r.evs, r.sawDone, r.mode⟩

/-- Result of one `chat_stream` call: whether the streaming completion POST
was issued, and the events the generator yielded. -/
structure ChatRun where
  completionCalled : Bool
  events : List DSChunk
deriving DecidableEq, Repr

/-- `chat_stream` (`app/deepseek.py`): first `_get_and_solve_pow`; on a
falsy result the generator returns at once — no completion call, no events.
Otherwise the completion POST is issued and the response lines are
processed; `streamErr` models an exception (transport failure,
`raise_for_status`, or a failure after the given lines), which the
`except` clause surfaces as one final `error` event — unless the loop
already returned at `[DONE]`, in which case the generator has exited. -/
def chat_stream (powResponse : Option String) (lines : List RawLine)
    (streamErr : Option String) : ChatRun :=
  if strFalsy powResponse then ⟨false, []⟩
  else
    let r := procLines false lines
    ⟨true, r.evs ++
      (if r.sawDone then []
       else match streamErr with
         | some m => [errorEv m]
         | none => [])⟩

/-- C1 fails as stated: when the PoW step returns `none`, `chat_stream`
executes a bare `return` — it never issues the streaming call, but it also
yields no events at all, so the event sequence contains zero terminal error
events rather than exactly one.  Shown at a concrete input whose lines and
trailing transport error would otherwise produce events. -/
theorem C1_counterexample :
    (chat_stream none [RawLine.ok ⟨some (some "response/content"), some "a"⟩]
        (some "boom")).completionCalled = false
    ∧ ¬ ((chat_stream none [RawLine.ok ⟨some (some "response/content"), some "a"⟩]
        (some "boom")).events.countP (fun c => c.type_ == some "error") = 1) := by
  decide

/-- C1 (amended): if the PoW solve step returns `none`, the workflow never
issues the streaming completion call and `chat_stream` produces the empty
event sequence — in particular no terminal error event is emitted, whatever
the upstream would have sent. -/
theorem C1_pow_failure_aborts_silently (lines : List RawLine) (streamErr : Option String) :
    chat_stream none lines streamErr = ⟨false, []⟩ := rfl

-- Event classification used by the ordering invariant.
def isTS (c : DSChunk) : Bool := c.type_ == some "thinking_start"
def isTD (c : DSChunk) : Bool := c.type_ == some "thinking"
def isThink (c : DSChunk) : Bool := isTS c || isTD c
def isAS (c : DSChunk) : Bool := c.type_ == some "answer_start"
def isCD (c : DSChunk) : Bool := c.type_ == some "content"

/-- `noneAfter p q l` holds when no `q`-event occurs strictly after any
`p`-event of `l`. -/
def noneAfter (p q : DSChunk → Bool) : List DSChunk → Bool
  | [] => true
  | c :: rest => (!(p c) || rest.all (fun e => !(q e))) && noneAfter p q rest

/-- The ordering property claimed for a `chat_stream` event sequence: at
most one `ThinkingStart`, no thinking event after an answer-content event,
and no thinking event after an `AnswerStart`. -/
def singleTransition (evs : List DSChunk) : Prop :=
  evs.countP isTS ≤ 1
  ∧ noneAfter isCD isThink evs = true
  ∧ noneAfter isAS isThink evs = true

instance (evs : List DSChunk) : Decidable (singleTransition evs) := by
  unfold singleTransition
  infer_instance

/-- C4 fails as stated: the loop in `chat_stream` merely mirrors the
upstream order.  If upstream sends a `response/content` frame first and a
`response/thinking_content` frame second, the produced events are
`[ContentDelta "a", ThinkingStart, ThinkingDelta "b"]` — thinking events
after the first answer-content event. -/
theorem C4_counterexample :
    (chat_stream (some "x")
      [RawLine.ok ⟨some (some "response/content"), some "a"⟩,
       RawLine.ok ⟨some (some "response/thinking_content"), some "b"⟩] none).events
      = [contentEv "a", thinkingStartEv, thinkingEv "b"]
    ∧ ¬ singleTransition [contentEv "a", thinkingStartEv, thinkingEv "b"] := by
  decide

/-- Classification of a buffered line by the branch of `chat_stream`'s
`if`/`elif` chain it triggers: a `response/thinking_content` frame, a
`response/content` frame, a pathless string-valued frame, or a line that
produces no event at all. -/
inductive FrameKind where
  | tpath
  | cpath
  | pless
deriving DecidableEq, Repr

def lineKind : RawLine → Option FrameKind
  | RawLine.ok f =>
    if f.pKey.join == some "response/thinking_content" then some FrameKind.tpath
    else if f.pKey.join == some "response/content" then some FrameKind.cpath
    else match f.pKey, f.vStr with
      | none, some _ => some FrameKind.pless
      | _, _ => none
  | _ => none

/-- Lines that can only yield thinking-path events (or nothing). -/
def onlyThinkLines (ls : List RawLine) : Bool :=
  ls.all fun l =>
    !(lineKind l == some FrameKind.cpath) && !(lineKind l == some FrameKind.pless)

/-- Lines that never trigger the thinking-path branch. -/
def noThinkLines (ls : List RawLine) : Bool :=
  ls.all fun l => !(lineKind l == some FrameKind.tpath)

theorem stepFrame_tpath (m : Bool) (f : DSFrame)
    (h : lineKind (RawLine.ok f) = some FrameKind.tpath) :
    stepFrame m f
      = ((if m then [] else [thinkingStartEv]) ++ [⟨some "thinking", f.vStr⟩], true) := by
  simp only [lineKind] at h
  split_ifs at h with h1 h2
  · unfold stepFrame
    rw [if_pos h1]
  · simp at h
  · rcases hp : f.pKey with _ | p <;> rcases hv : f.vStr with _ | s <;>
      simp [hp, hv] at h

theorem stepFrame_cpath (m : Bool) (f : DSFrame)
    (h : lineKind (RawLine.ok f) = some FrameKind.cpath) :
    stepFrame m f
      = ((if m then [answerStartEv] else []) ++ [⟨some "content", f.vStr⟩], false) := by
  simp only [lineKind] at h
  split_ifs at h with h1 h2
  · simp at h
  · unfold stepFrame
    rw [if_neg h1, if_pos h2]
  · rcases hp : f.pKey with _ | p <;> rcases hv : f.vStr with _ | s <;>
      simp [hp, hv] at h

theorem stepFrame_pless (m : Bool) (f : DSFrame)
    (h : lineKind (RawLine.ok f) = some FrameKind.pless) :
    ∃ s, f.vStr = some s
      ∧ stepFrame m f
        = ([⟨some (if m then "thinking" else "content"), some s⟩], m) := by
  simp only [lineKind] at h
  split_ifs at h with h1 h2
  · simp at h
  · simp at h
  · rcases hp : f.pKey with _ | p <;> rcases hv : f.vStr with _ | s <;>
      simp [hp, hv] at h
    refine ⟨s, rfl, ?_⟩
    unfold stepFrame
    rw [if_neg h1, if_neg h2, hp, hv]

theorem stepFrame_none (m : Bool) (f : DSFrame)
    (h : lineKind (RawLine.ok f) = none) :
    stepFrame m f = ([], m) := by
  simp only [lineKind] at h
  split_ifs at h with h1 h2
  rcases hp : f.pKey with _ | p <;> rcases hv : f.vStr with _ | s
  · unfold stepFrame
    rw [if_neg h1, if_neg h2, hp, hv]
  · simp [hp, hv] at h
  · unfold stepFrame
    rw [if_neg h1, if_neg h2, hp]
  · unfold stepFrame
    rw [if_neg h1, if_neg h2, hp]

theorem procLines_append (m : Bool) (xs ys : List RawLine) :
    procLines m (xs ++ ys)
      = if (procLines m xs).sawDone then procLines m xs
        else ⟨(procLines m xs).evs ++ (procLines (procLines m xs).mode ys).evs,
              (procLines (procLines m xs).mode ys).sawDone,
              (procLines (procLines m xs).mode ys).mode⟩ := by
  induction xs generalizing m with
  | nil => simp [procLines]
  | cons l xs ih =>
    cases l with
    | noData => simpa [procLines] using ih m
    | doneMark => simp [procLines]
    | bad => simpa [procLines] using ih m
    | ok f =>
      show procLines m (RawLine.ok f :: (xs ++ ys)) = _
      rw [show procLines m (RawLine.ok f :: (xs ++ ys))
            = ⟨(stepFrame m f).1 ++ (procLines (stepFrame m f).2 (xs ++ ys)).evs,
               (procLines (stepFrame m f).2 (xs ++ ys)).sawDone,
               (procLines (stepFrame m f).2 (xs ++ ys)).mode⟩ from rfl,
          ih (stepFrame m f).2]
      by_cases hd : (procLines (stepFrame m f).2 xs).sawDone = true
      · simp only [hd, if_true]
        rw [show procLines m (RawLine.ok f :: xs)
              = ⟨(stepFrame m f).1 ++ (procLines (stepFrame m f).2 xs).evs,
                 (procLines (stepFrame m f).2 xs).sawDone,
                 (procLines (stepFrame m f).2 xs).mode⟩ from rfl]
        simp [hd]
      · simp only [hd, if_false]
        rw [show procLines m (RawLine.ok f :: xs)
              = ⟨(stepFrame m f).1 ++ (procLines (stepFrame m f).2 xs).evs,
                 (procLines (stepFrame m f).2 xs).sawDone,
                 (procLines (stepFrame m f).2 xs).mode⟩ from rfl]
        simp [hd, List.append_assoc]

theorem procLines_onlyThink_true (ls : List RawLine) (h : onlyThinkLines ls = true) :
    (procLines true ls).evs.all isTD = true ∧ (procLines true ls).mode = true := by
  induction ls with
  | nil => exact ⟨rfl, rfl⟩
  | cons l rest ih =>
    have hl : (!(lineKind l == some FrameKind.cpath)
        && !(lineKind l == some FrameKind.pless)) = true := by
      have := h
      unfold onlyThinkLines at this
      exact (List.all_cons .. ▸ this |> Bool.and_elim_left)
    have hrest : onlyThinkLines rest = true := by
      have := h
      unfold onlyThinkLines at this
      exact (List.all_cons .. ▸ this |> Bool.and_elim_right)
    cases l with
    | noData => simpa [procLines] using ih hrest
    | doneMark => exact ⟨rfl, rfl⟩
    | bad => simpa [procLines] using ih hrest
    | ok f =>
      rcases hk : lineKind (RawLine.ok f) with _ | k
      · have hstep := stepFrame_none true f hk
        show ((stepFrame true f).1 ++ (procLines (stepFrame true f).2 rest).evs).all isTD = true
          ∧ (procLines (stepFrame true f).2 rest).mode = true
        rw [hstep]
        simpa using ih hrest
      · cases k with
        | tpath =>
          have hstep := stepFrame_tpath true f hk
          show ((stepFrame true f).1 ++ (procLines (stepFrame true f).2 rest).evs).all isTD = true
            ∧ (procLines (stepFrame true f).2 rest).mode = true
          rw [hstep]
          have hr := ih hrest
          refine ⟨?_, hr.2⟩
          simp only [if_true]
          simp [List.all_append, hr.1, isTD]
        | cpath => simp [hk] at hl
        | pless => simp [hk] at hl

theorem procLines_onlyThink_false (ls : List RawLine) (h : onlyThinkLines ls = true) :
    ((procLines false ls).evs = [] ∧ (procLines false ls).mode = false)
    ∨ (∃ tl, (procLines false ls).evs = thinkingStartEv :: tl ∧ tl.all isTD = true
        ∧ (procLines false ls).mode = true) := by
  induction ls with
  | nil => exact Or.inl ⟨rfl, rfl⟩
  | cons l rest ih =>
    have hl : (!(lineKind l == some FrameKind.cpath)
        && !(lineKind l == some FrameKind.pless)) = true := by
      have := h
      unfold onlyThinkLines at this
      exact (List.all_cons .. ▸ this |> Bool.and_elim_left)
    have hrest : onlyThinkLines rest = true := by
      have := h
      unfold onlyThinkLines at this
      exact (List.all_cons .. ▸ this |> Bool.and_elim_right)
    cases l with
    | noData => simpa [procLines] using ih hrest
    | doneMark => exact Or.inl ⟨rfl, rfl⟩
    | bad => simpa [procLines] using ih hrest
    | ok f =>
      rcases hk : lineKind (RawLine.ok f) with _ | k
      · have hstep := stepFrame_none false f hk
        have heq : procLines false (RawLine.ok f :: rest) = procLines false rest := by
          show (⟨(stepFrame false f).1 ++ (procLines (stepFrame false f).2 rest).evs,
                 (procLines (stepFrame false f).2 rest).sawDone,
                 (procLines (stepFrame false f).2 rest).mode⟩ : ProcOut) = _
          rw [hstep]
          rfl
        rw [heq]
        exact ih hrest
      · cases k with
        | tpath =>
          have hstep := stepFrame_tpath false f hk
          have hr := procLines_onlyThink_true rest hrest
          refine Or.inr ⟨⟨some "thinking", f.vStr⟩ :: (procLines true rest).evs, ?_, ?_, ?_⟩
          · show (stepFrame false f).1 ++ (procLines (stepFrame false f).2 rest).evs = _
            rw [hstep]
            simp
          · simp [List.all_cons, hr.1, isTD]
          · show (procLines (stepFrame false f).2 rest).mode = true
            rw [hstep]
            exact hr.2
        | cpath => simp [hk] at hl
        | pless => simp [hk] at hl

theorem procLines_noThink (ls : List RawLine) (m : Bool) (h : noThinkLines ls = true) :
    ∃ tk rest, (procLines m ls).evs = tk ++ rest ∧ tk.all isTD = true
      ∧ rest.all (fun e => !(isThink e)) = true
      ∧ (m = false → tk = []) := by
  induction ls generalizing m with
  | nil => exact ⟨[], [], rfl, rfl, rfl, fun _ => rfl⟩
  | cons l rest0 ih =>
    have hl : (!(lineKind l == some FrameKind.tpath)) = true := by
      have := h
      unfold noThinkLines at this
      exact (List.all_cons .. ▸ this |> Bool.and_elim_left)
    have hrest : noThinkLines rest0 = true := by
      have := h
      unfold noThinkLines at this
      exact (List.all_cons .. ▸ this |> Bool.and_elim_right)
    cases l with
    | noData => simpa [procLines] using ih m hrest
    | doneMark => exact ⟨[], [], rfl, rfl, rfl, fun _ => rfl⟩
    | bad => simpa [procLines] using ih m hrest
    | ok f =>
      have hsplit : ∀ mm : Bool, (procLines mm (RawLine.ok f :: rest0)).evs
          = (stepFrame mm f).1 ++ (procLines (stepFrame mm f).2 rest0).evs := fun _ => rfl
      rcases hk : lineKind (RawLine.ok f) with _ | k
      · rcases ih m hrest with ⟨tk, rst, hevs, htk, hrst, himp⟩
        refine ⟨tk, rst, ?_, htk, hrst, himp⟩
        rw [hsplit m, stepFrame_none m f hk]
        simpa using hevs
      · cases k with
        | tpath => simp [hk] at hl
        | cpath =>
          rcases ih false hrest with ⟨tk, rst, hevs, htk, hrst, himp⟩
          have htk0 : tk = [] := himp rfl
          subst htk0
          refine ⟨[], (if m then [answerStartEv] else []) ++ [⟨some "content", f.vStr⟩] ++ rst,
            ?_, rfl, ?_, fun _ => rfl⟩
          · rw [hsplit m, stepFrame_cpath m f hk]
            simp at hevs
            simp [hevs, List.append_assoc]
          · cases m <;> simp_all [isThink, isTS, isTD, answerStartEv]
        | pless =>
          rcases stepFrame_pless m f hk with ⟨s, hv, hstep⟩
          rcases ih m hrest with ⟨tk, rst, hevs, htk, hrst, himp⟩
          cases m with
          | false =>
            have htk0 : tk = [] := himp rfl
            subst htk0
            refine ⟨[], ⟨some "content", some s⟩ :: rst, ?_, rfl, ?_, fun _ => rfl⟩
            · rw [hsplit false, hstep]
              simp at hevs
              simp [hevs]
            · simp_all [isThink, isTS, isTD]
          | true =>
            refine ⟨⟨some "thinking", some s⟩ :: tk, rst, ?_, ?_, hrst, fun hq => by cases hq⟩
            · rw [hsplit true, hstep]
              simp [hevs]
            · simp [List.all_cons, htk, isTD]

theorem noneAfter_of_no_q (p q : DSChunk → Bool) (l : List DSChunk)
    (h : l.all (fun e => !(q e)) = true) : noneAfter p q l = true := by
  induction l with
  | nil => rfl
  | cons c rest ih =>
    simp only [List.all_cons, Bool.and_eq_true] at h
    show ((!(p c) || rest.all fun e => !(q e)) && noneAfter p q rest) = true
    rw [ih h.2, h.2, Bool.and_true, Bool.or_true]

theorem noneAfter_append_of (p q : DSChunk → Bool) (xs ys : List DSChunk)
    (hx : xs.all (fun e => !(p e)) = true)
    (hy : ys.all (fun e => !(q e)) = true) : noneAfter p q (xs ++ ys) = true := by
  induction xs with
  | nil => exact noneAfter_of_no_q p q ys hy
  | cons c rest ih =>
    simp only [List.all_cons, Bool.and_eq_true] at hx
    show ((!(p c) || (rest ++ ys).all fun e => !(q e)) && noneAfter p q (rest ++ ys)) = true
    rw [ih hx.2, hx.1, Bool.and_true, Bool.true_or]

theorem isTD_type (e : DSChunk) (h : isTD e = true) : e.type_ = some "thinking" :=
  eq_of_beq h

theorem allTD_not_isTS (l : List DSChunk) (h : l.all isTD = true) :
    l.all (fun e => !(isTS e)) = true := by
  rw [List.all_eq_true] at h ⊢
  intro e he
  have := isTD_type e (h e he)
  simp [isTS, this]

theorem allTD_not_isCD (l : List DSChunk) (h : l.all isTD = true) :
    l.all (fun e => !(isCD e)) = true := by
  rw [List.all_eq_true] at h ⊢
  intro e he
  have := isTD_type e (h e he)
  simp [isCD, this]

theorem allTD_not_isAS (l : List DSChunk) (h : l.all isTD = true) :
    l.all (fun e => !(isAS e)) = true := by
  rw [List.all_eq_true] at h ⊢
  intro e he
  have := isTD_type e (h e he)
  simp [isAS, this]

theorem allNotThink_not_isTS (l : List DSChunk) (h : l.all (fun e => !(isThink e)) = true) :
    l.all (fun e => !(isTS e)) = true := by
  rw [List.all_eq_true] at h ⊢
  intro e he
  have := h e he
  simp only [isThink, Bool.not_eq_true', Bool.or_eq_false_iff] at this
  simp [this.1]

theorem countP_zero_of_all_not (l : List DSChunk) (p : DSChunk → Bool)
    (h : l.all (fun e => !(p e)) = true) : l.countP p = 0 := by
  rw [List.countP_eq_zero]
  rw [List.all_eq_true] at h
  intro e he
  have := h e he
  simp_all

theorem singleTransition_of_noThink (evs : List DSChunk)
    (h : evs.all (fun e => !(isThink e)) = true) : singleTransition evs := by
  refine ⟨?_, ?_, ?_⟩
  · rw [countP_zero_of_all_not evs isTS (allNotThink_not_isTS evs h)]
    exact Nat.zero_le 1
  · exact noneAfter_of_no_q isCD isThink evs h
  · exact noneAfter_of_no_q isAS isThink evs h

theorem singleTransition_shape (tl tk rest : List DSChunk)
    (h1 : tl.all isTD = true) (h2 : tk.all isTD = true)
    (h3 : rest.all (fun e => !(isThink e)) = true) :
    singleTransition ((thinkingStartEv :: tl) ++ tk ++ rest) := by
  have hxs : ((thinkingStartEv :: tl) ++ tk).all (fun e => !(isCD e)) = true := by
    simp only [List.all_append, List.all_cons, Bool.and_eq_true]
    exact ⟨⟨by simp [isCD, thinkingStartEv], allTD_not_isCD tl h1⟩, allTD_not_isCD tk h2⟩
  have hxs2 : ((thinkingStartEv :: tl) ++ tk).all (fun e => !(isAS e)) = true := by
    simp only [List.all_append, List.all_cons, Bool.and_eq_true]
    exact ⟨⟨by simp [isAS, thinkingStartEv], allTD_not_isAS tl h1⟩, allTD_not_isAS tk h2⟩
  refine ⟨?_, ?_, ?_⟩
  · rw [List.append_assoc]
    rw [List.countP_append]
    rw [show ((thinkingStartEv :: tl).countP isTS)
          = 1 + tl.countP isTS from by simp [List.countP_cons, isTS, thinkingStartEv, Nat.add_comm]]
    rw [countP_zero_of_all_not tl isTS (allTD_not_isTS tl h1)]
    rw [List.countP_append]
    rw [countP_zero_of_all_not tk isTS (allTD_not_isTS tk h2)]
    rw [countP_zero_of_all_not rest isTS (allNotThink_not_isTS rest h3)]
  · exact noneAfter_append_of isCD isThink _ rest hxs h3
  · exact noneAfter_append_of isAS isThink _ rest hxs2 h3

/-- C4 (amended): the single-transition ordering holds for every upstream
frame sequence that splits into a prefix free of content-path and pathless
string frames followed by a suffix free of thinking-path frames — i.e.
whenever upstream delivers all thinking content before any answer content,
as the spec assumes.  The counterexample shows the unrestricted claim is
false: `chat_stream` merely mirrors upstream order, so interleaved upstream
frames produce repeated or late thinking transitions. -/
theorem C4_single_transition_when_upstream_ordered
    (tlines clines : List RawLine) (streamErr : Option String) (pw : String)
    (hpw : pw ≠ "")
    (ht : onlyThinkLines tlines = true) (hcl : noThinkLines clines = true) :
    singleTransition (chat_stream (some pw) (tlines ++ clines) streamErr).events := by
  have hchat : chat_stream (some pw) (tlines ++ clines) streamErr
      = ⟨true, (procLines false (tlines ++ clines)).evs ++
          (if (procLines false (tlines ++ clines)).sawDone then []
           else match streamErr with | some m => [errorEv m] | none => [])⟩ := by
    unfold chat_stream
    rw [if_neg (by simp [strFalsy, hpw])]
  rw [hchat]
  have herrAll : ∀ b : Bool,
      ((if b then []
        else match streamErr with
          | some m => [errorEv m]
          | none => ([] : List DSChunk))).all (fun e => !(isThink e)) = true := by
    intro b
    cases b <;> cases streamErr <;> simp [isThink, isTS, isTD, errorEv]
  rw [procLines_append false tlines clines]
  by_cases hdA : (procLines false tlines).sawDone = true
  · simp only [hdA, if_true]
    rcases procLines_onlyThink_false tlines ht with ⟨he, _⟩ | ⟨tl, he, htl, _⟩
    · rw [he]
      exact singleTransition_of_noThink _ (by simp [herrAll true])
    · rw [he]
      have := singleTransition_shape tl [] [] htl rfl rfl
      simpa using this
  · simp only [hdA, if_false]
    rcases procLines_onlyThink_false tlines ht with ⟨he, hm⟩ | ⟨tl, he, htl, hm⟩
    · rcases procLines_noThink clines (procLines false tlines).mode hcl with
        ⟨tk, rst, hevs, htk, hrst, himp⟩
      have htk0 : tk = [] := by
        rw [hm] at himp
        exact himp rfl
      subst htk0
      rw [he, hevs]
      refine singleTransition_of_noThink _ ?_
      simp only [List.nil_append, List.all_append, Bool.and_eq_true]
      exact ⟨by simpa using hrst, herrAll _⟩
  
    · rcases procLines_noThink clines (procLines false tlines).mode hcl with
        ⟨tk, rst, hevs, htk, hrst, _⟩
      rw [he, hevs]
      have hrest2 : (rst ++ (if (procLines (procLines false tlines).mode clines).sawDone
          then []
          else match streamErr with
            | some m => [errorEv m]
            | none => ([] : List DSChunk))).all (fun e => !(isThink e)) = true := by
        simp only [List.all_append, Bool.and_eq_true]
        exact ⟨hrst, herrAll _⟩
      have := singleTransition_shape tl tk _ htl htk hrest2
      simpa [List.append_assoc] using this

/-- Witness for the amended C4 at a concrete ordered upstream sequence:
one thinking frame followed by one content frame. -/
theorem C4_single_transition_when_upstream_ordered_witness :
    singleTransition (chat_stream (some "pow")
      ([RawLine.ok ⟨some (some "response/thinking_content"), some "t"⟩]
        ++ [RawLine.ok ⟨some (some "response/content"), some "c"⟩]) none).events :=
  C4_single_transition_when_upstream_ordered
    [RawLine.ok ⟨some (some "response/thinking_content"), some "t"⟩]
    [RawLine.ok ⟨some (some "response/content"), some "c"⟩]
    none "pow" (by decide) (by decide) (by decide)

/-- Observable actions of one run of the per-turn workflow
(`stream_generator` in `app/main.py` together with
`managed_chat_session` in `app/deepseek.py`): the `_create_session` call,
the streaming completion POST, a yielded chunk, and a `_delete_session`
call on a given session id. -/
inductive WAct where
  | createSession
  | completionCall
  | emit (c : DSChunk)
  | deleteSession (sid : String)
deriving DecidableEq, Repr

def isDeleteAct : WAct → Bool
  | WAct.deleteSession _ => true
  | _ => false

/-- The actions performed by one `chat_stream` call: the completion POST if
it was issued, then the yielded events. -/
def chat_stream_acts (pow : Option String) (lines : List RawLine)
    (streamErr : Option String) : List WAct :=
  let r := chat_stream pow lines streamErr
  (if r.completionCalled then [WAct.completionCall] else []) ++ r.events.map WAct.emit

/-- The error chunk `stream_generator` yields when session creation fails. -/
def sessionFailChunk : DSChunk := ⟨some "error", some "Failed to create chat session."⟩

/-- Action trace of one run of `stream_generator`: `_create_session` runs
first (inside `managed_chat_session`).  If its result is falsy the context
manager yields `None`, the generator yields the error chunk and returns,
and no deletion is attempted.  Otherwise the body runs; `consumed` models
how much of the body's action stream the caller actually drove before
completing, failing, or being cancelled (an async generator executes only
as far as it is consumed), and the `finally` block of
`managed_chat_session` then performs exactly one `_delete_session` on the
created id on every such exit path. -/
def stream_generator (createResult : Option String) (pow : Option String)
    (lines : List RawLine) (streamErr : Option String) (consumed : Nat) : List WAct :=
  WAct.createSession ::
    (if strFalsy createResult then [WAct.emit sessionFailChunk]
     else ((chat_stream_acts pow lines streamErr).take consumed)
       ++ [WAct.deleteSession (createResult.getD "")])

theorem chat_stream_acts_no_delete (pow : Option String) (lines : List RawLine)
    (streamErr : Option String) (a : WAct)
    (h : a ∈ chat_stream_acts pow lines streamErr) : isDeleteAct a = false := by
  unfold chat_stream_acts at h
  rcases List.mem_append.mp h with h1 | h1
  · rcases (chat_stream pow lines streamErr).completionCalled with _ | _ <;>
      simp_all [isDeleteAct]
  · rcases List.mem_map.mp h1 with ⟨c, _, rfl⟩
    rfl

/-- C3: whenever `_create_session` returns a session id, the workflow's
trace contains exactly one `_delete_session` action and it targets that id,
for every way the body can end (any amount of the stream consumed — normal
completion, mid-stream failure, or cancellation); and when
`_create_session` fails, the trace is exactly the create attempt followed
by one yielded error chunk — no deletion and no streaming call. -/
theorem C3_session_cleanup (createResult : Option String) (pow : Option String)
    (lines : List RawLine) (streamErr : Option String) (consumed : Nat) :
    match createResult with
    | some sid => sid ≠ "" →
        (stream_generator createResult pow lines streamErr consumed).countP isDeleteAct = 1
        ∧ WAct.deleteSession sid ∈ stream_generator createResult pow lines streamErr consumed
    | none =>
        stream_generator createResult pow lines streamErr consumed
          = [WAct.createSession, WAct.emit sessionFailChunk] := by
  cases createResult with
  | none => rfl
  | some sid =>
    intro hsid
    have hguard : strFalsy (some sid) = false := by simp [strFalsy, hsid]
    have htr : stream_generator (some sid) pow lines streamErr consumed
        = WAct.createSession ::
          (((chat_stream_acts pow lines streamErr).take consumed)
            ++ [WAct.deleteSession sid]) := by
      unfold stream_generator
      rw [if_neg (by simp [hguard])]
      rfl
    rw [htr]
    constructor
    · rw [List.countP_cons, List.countP_append]
      have hz : ((chat_stream_acts pow lines streamErr).take consumed).countP isDeleteAct
          = 0 := by
        rw [List.countP_eq_zero]
        intro a ha
        have hmem : a ∈ chat_stream_acts pow lines streamErr :=
          List.take_subset consumed _ ha
        simp [chat_stream_acts_no_delete pow lines streamErr a hmem]
      rw [hz]
      rfl
    · simp

/-- Witness for C3 at concrete inputs: a successful creation with id
`"sess1"` is deleted exactly once, and a failed creation produces just the
create attempt and the error chunk. -/
theorem C3_session_cleanup_witness :
    ((stream_generator (some "sess1") (some "pow") [] none 5).countP isDeleteAct = 1
      ∧ WAct.deleteSession "sess1" ∈ stream_generator (some "sess1") (some "pow") [] none 5)
    ∧ stream_generator none (some "pow") [] none 5
        = [WAct.createSession, WAct.emit sessionFailChunk] :=
  ⟨C3_session_cleanup (some "sess1") (some "pow") [] none 5 (by decide),
   C3_session_cleanup none (some "pow") [] none 5⟩

/-- A configured identity (`Account` in `app/config.py`): optional email or
mobile handle, a password, and an optional pre-issued token. -/
structure Account where
  email : Option String
  mobile : Option String
  password : String
  token : Option String
deriving DecidableEq, Repr

/-- Upstream login outcome as `_login_and_get_token` (`app/accounts.py`)
observes it: the request raised (network error or non-2xx status, both end
in the `except` clause), or a decoded body with its `code` field and the
token at `data.biz_data.user.token` (`none` when that path is missing —
the `KeyError` is swallowed by the same `except`). -/
inductive LoginResp where
  | exn
  | body (code : Option Int) (token : Option String)
deriving DecidableEq, Repr

/-- `_login_and_get_token` (`app/accounts.py`): `None` on any exception;
on a decoded body, the token when `code == 0` and the token path exists,
otherwise `None`. -/
def login_and_get_token (resp : LoginResp) : Option String :=
  match resp with
  | LoginResp.exn => none
  | LoginResp.body code tok => if code == some 0 then tok else none

/-- The token that `initialize_tokens` ends up with for one account: for an
account whose `token` is falsy a login is performed, otherwise the stored
token is used directly (`asyncio.sleep(0, result=acc.token)`). -/
def tokenResult (acc : Account) (resp : LoginResp) : Option String :=
  if strFalsy acc.token then login_and_get_token resp else acc.token

/-- The accounts for which `initialize_tokens` creates a login task. -/
def loginCalls (accs : List Account) : List Account :=
  accs.filter fun a => strFalsy a.token

/-- `initialize_tokens` (`app/accounts.py`): resolve every account's token
concurrently (`asyncio.gather` keeps results in input order; one failure
does not cancel the others), then enqueue, in order, exactly the accounts
whose resolved token is truthy, with the token written back.  The FIFO
queue contents are modelled as the resulting list. -/
def init_tokens (accs : List Account) (resps : List LoginResp) : List Account :=
  (accs.zip resps).filterMap fun p =>
    if strFalsy (tokenResult p.1 p.2) then none
    else some (Account.mk p.1.email p.1.mobile p.1.password (tokenResult p.1 p.2))

theorem init_tokens_length_aux (l : List (Account × LoginResp)) :
    (l.filterMap fun p =>
      if strFalsy (tokenResult p.1 p.2) then none
      else some (Account.mk p.1.email p.1.mobile p.1.password (tokenResult p.1 p.2))).length
    + l.countP (fun p => strFalsy (tokenResult p.1 p.2)) = l.length := by
  induction l with
  | nil => rfl
  | cons p rest ih =>
    by_cases hf : strFalsy (tokenResult p.1 p.2) = true
    · simp [List.filterMap_cons, List.countP_cons, hf]
      omega
    · simp [List.filterMap_cons, List.countP_cons, hf]
      omega

/-- C9: if, among `N` zipped (account, login outcome) pairs, exactly one
resolves to a falsy token (login exception, non-zero status code, missing
token — or an empty configured token that also fails login), then the pool
is initialized with exactly `N - 1` accounts; accounts that already carry a
truthy token are not among those for which a login call is made; and every
pair with a truthy resolved token is enqueued (one failure excludes only
that identity). -/
theorem C9_login_failure_isolation (accs : List Account) (resps : List LoginResp)
    (hone : ((accs.zip resps).countP fun p => strFalsy (tokenResult p.1 p.2)) = 1)
    (hlen : resps.length = accs.length) :
    (init_tokens accs resps).length = accs.length - 1
    ∧ (∀ a ∈ accs, strFalsy a.token = false → a ∉ loginCalls accs)
    ∧ (∀ p ∈ accs.zip resps, strFalsy (tokenResult p.1 p.2) = false →
        Account.mk p.1.email p.1.mobile p.1.password (tokenResult p.1 p.2) ∈ init_tokens accs resps) := by
  refine ⟨?_, ?_, ?_⟩
  · have haux := init_tokens_length_aux (accs.zip resps)
    rw [hone] at haux
    have hz : (accs.zip resps).length = accs.length := by
      rw [List.length_zip, hlen]
      exact min_self _
    unfold init_tokens
    omega
  · intro a _ htok hmem
    unfold loginCalls at hmem
    rw [List.mem_filter] at hmem
    rw [htok] at hmem
    exact absurd hmem.2 (by simp)
  · intro p hp hres
    unfold init_tokens
    apply List.mem_filterMap.mpr
    exact ⟨p, hp, by rw [if_neg (by simp [hres])]⟩

/-- Witness for C9 at a concrete pool of three identities: one with a
pre-issued token (login skipped), one whose login succeeds, one whose login
raises — initialization yields exactly two pool entries. -/
theorem C9_login_failure_isolation_witness :
    (init_tokens
      [⟨some "a@x", none, "pw", some "tokA"⟩,
       ⟨some "b@x", none, "pw", none⟩,
       ⟨none, some "123", "pw", none⟩]
      [LoginResp.exn, LoginResp.body (some 0) (some "tokB"), LoginResp.exn]).length = 2 :=
  (C9_login_failure_isolation
    [⟨some "a@x", none, "pw", some "tokA"⟩,
     ⟨some "b@x", none, "pw", none⟩,
     ⟨none, some "123", "pw", none⟩]
    [LoginResp.exn, LoginResp.body (some 0) (some "tokB"), LoginResp.exn]
    (by decide) (by decide)).1
